import Mathlib

/-!
# ProfileWizard core — shallow embedding and verification

A shallow embedding of the algorithmic core of the ProfileWizard
repository (vertical-probe geometry engine in `core/dxf_probe.py`, the
outline sampler in `core/probe.py`, the planner in `core/planner.py`, the
two G-code post processors in `core/post_processors/`, and the operations
layer in `core/operations.py`), together with theorems checking the
natural-language specification's claims against it.

Modelling conventions:
* Python floats are modelled as rationals (`ℚ`).  The two transcendental
  primitives the code uses (`math.sqrt` and `math.atan2`-in-degrees) are
  abstracted into a parameter record `Fns`; every algorithmic definition
  is generic over it, so all definitions stay computable.
* Loops that can diverge in the source (`while x <= xmax`, the smoothing
  stripe `while`) are embedded with an explicit fuel argument returning
  `Option`; `none` means the fuel ran out while the loop guard still held.
* Emitted G-code lines are modelled structurally (`GLine`): coordinates
  keep their axis letters and rational values exactly as ordered by the
  `_xyz` helper; fixed boilerplate lines keep their text; comment lines
  are kept positionally as tags (their decorative payloads — dash runs,
  indices interpolated into comment text, the `N`-prefix line numbering of
  the Breton dialect — are pure output formatting and carry no data used
  anywhere).
-/

namespace ProfileWizard

/-! ## Numeric helpers -/

/-- Python's `a % 360.0` on floats: the representative of `a` in
`[0, 360)` (floor-based modulus). -/
def qmod360 (a : ℚ) : ℚ := a - 360 * ⌊a / 360⌋

/-- Python's `math.isclose(a, b)` with its default tolerances
(`rel_tol = 1e-9`, `abs_tol = 0`). -/
def isclose (a b : ℚ) : Bool :=
  |a - b| ≤ (1 / 1000000000 : ℚ) * max |a| |b|

/-- Python's falsy-coalescing `v or d` for an optional float argument:
`None` and `0.0` both fall back to `d`. -/
def pyOr (v : Option ℚ) (d : ℚ) : ℚ :=
  match v with
  | none => d
  | some s => if s = 0 then d else s

/-- The `best = y if best is None else max(best, y)` accumulation used
throughout `dxf_probe.py` (`None` is the identity). -/
def bestFold (acc : Option ℚ) (y : Option ℚ) : Option ℚ :=
  match y with
  | none => acc
  | some v =>
    match acc with
    | none => some v
    | some b => some (max b v)

/-- `bestFold` is an associative-with-identity merge of optional maxima. -/
def omax (a b : Option ℚ) : Option ℚ :=
  match a, b with
  | none, b => b
  | some v, none => some v
  | some v, some w => some (max v w)

instance : Std.Antisymm (fun a b : ℚ => a ≤ b) :=
  ⟨fun h1 h2 => le_antisymm h1 h2⟩

/-! ## Abstracted transcendental primitives -/

/-- The two transcendental primitives used by `core/dxf_probe.py`,
abstracted so the embedding stays exact over `ℚ`:
`sqrt q` models `math.sqrt(q)` (only ever applied to nonnegative
arguments by the code), and `atan2deg dy dx` models
`math.degrees(math.atan2(dy, dx))`. -/
structure Fns where
  sqrt : ℚ → ℚ
  atan2deg : ℚ → ℚ → ℚ

/-- `_angle_deg(dx, dy)`: `math.degrees(math.atan2(dy, dx)) % 360.0`. -/
def angle_deg (F : Fns) (dx dy : ℚ) : ℚ := qmod360 (F.atan2deg dy dx)

/-- `_on_arc_ccw(a, start, end)` from `core/dxf_probe.py`. -/
def on_arc_ccw (a s e : ℚ) : Bool :=
  let a' := qmod360 a
  let s' := qmod360 s
  let e' := qmod360 e
  if s' ≤ e' then decide (s' ≤ a' ∧ a' ≤ e') else decide (a' ≥ s' ∨ a' ≤ e')

/-- `_on_arc(a, start, end, ccw)` from `core/dxf_probe.py`. -/
def on_arc (a s e : ℚ) (ccw : Bool) : Bool :=
  if ccw then on_arc_ccw a s e else on_arc_ccw a e s

/-! ## Entities (the primitive data model) -/

/-- A `LINE` entity: start `(x1, y1)`, end `(x2, y2)`. -/
structure LineE where
  x1 : ℚ
  y1 : ℚ
  x2 : ℚ
  y2 : ℚ
deriving DecidableEq

/-- A `CIRCLE` entity: center `(cx, cy)`, radius `r`. -/
structure CircleE where
  cx : ℚ
  cy : ℚ
  r : ℚ
deriving DecidableEq

/-- An `ARC` entity: center, radius, start/end angles in degrees, and the
z-component of its extrusion vector (its sign gives the winding:
`ccw = extrusion[2] >= 0`). -/
structure ArcE where
  cx : ℚ
  cy : ℚ
  r : ℚ
  sa : ℚ
  ea : ℚ
  extz : ℚ
deriving DecidableEq

/-- A sub-entity produced by `LWPolyline.virtual_entities()`: straight
segments stay lines, bulge segments become arcs. -/
inductive Sub where
  | line (l : LineE)
  | arc (a : ArcE)
deriving DecidableEq

/-- A DXF entity as consumed by `VerticalProbe`.  An `LWPOLYLINE` is
modelled by the sub-entity list its `virtual_entities()` expands to. -/
inductive Entity where
  | line (l : LineE)
  | circle (c : CircleE)
  | arc (a : ArcE)
  | poly (subs : List Sub)
deriving DecidableEq

/-! ## Per-entity solvers (`VerticalProbe._y_*`) -/

/-- `VerticalProbe._y_circle`. -/
def y_circle (F : Fns) (c : CircleE) (x : ℚ) : Option ℚ :=
  let dx := x - c.cx
  if |dx| > c.r then none
  else some (c.cy + F.sqrt (c.r * c.r - dx * dx))

/-- `VerticalProbe._y_line`. -/
def y_line (l : LineE) (x : ℚ) : Option ℚ :=
  if isclose l.x1 l.x2 then
    if isclose x l.x1 then some (max l.y1 l.y2) else none
  else if x < min l.x1 l.x2 ∨ x > max l.x1 l.x2 then none
  else some (l.y1 + (x - l.x1) / (l.x2 - l.x1) * (l.y2 - l.y1))

/-- `VerticalProbe._y_arc`. -/
def y_arc (F : Fns) (a : ArcE) (x : ℚ) : Option ℚ :=
  let dx := x - a.cx
  if |dx| > a.r then none
  else
    let dy := F.sqrt (a.r * a.r - dx * dx)
    let hits : List (ℚ × ℚ) := [(x, a.cy + dy), (x, a.cy - dy)]
    let ccw : Bool := decide (a.extz ≥ 0)
    let ys := hits.filterMap fun h =>
      if on_arc (angle_deg F (h.1 - a.cx) (h.2 - a.cy)) a.sa a.ea ccw
      then some h.2 else none
    ys.max?

/-- Dispatch for a polyline sub-entity (`_y_at_x` restricted to the
`virtual_entities()` output, which contains only lines and arcs). -/
def y_sub (F : Fns) (s : Sub) (x : ℚ) : Option ℚ :=
  match s with
  | .line l => y_line l x
  | .arc a => y_arc F a x

/-- `VerticalProbe._y_at_x`: dispatch on the entity's runtime type
(`Arc` is tested before `Circle`, matching the isinstance order); a
polyline folds `best = max(best, y)` over its sub-entities
(`VerticalProbe._y_poly`). -/
def y_at_x (F : Fns) (e : Entity) (x : ℚ) : Option ℚ :=
  match e with
  | .arc a => y_arc F a x
  | .circle c => y_circle F c x
  | .poly subs => subs.foldl (fun acc s => bestFold acc (y_sub F s x)) none
  | .line l => y_line l x

/-! ## The probe (`VerticalProbe`) -/

/-- The probe's rebuildable per-type partition of the entity source. -/
structure VerticalProbe where
  arcs : List Entity
  circs : List Entity
  polys : List Entity
  lines : List Entity
deriving DecidableEq

/-- Whether an entity's `dxftype()` is `"ARC"`. -/
def isArcT (e : Entity) : Bool := match e with | .arc _ => true | _ => false

/-- Whether an entity's `dxftype()` is `"CIRCLE"`. -/
def isCircleT (e : Entity) : Bool := match e with | .circle _ => true | _ => false

/-- Whether an entity's `dxftype()` is `"LWPOLYLINE"`. -/
def isPolyT (e : Entity) : Bool := match e with | .poly _ => true | _ => false

/-- Whether an entity's `dxftype()` is `"LINE"`. -/
def isLineT (e : Entity) : Bool := match e with | .line _ => true | _ => false

/-- `VerticalProbe.rebuild`: partition the source into the four variant
buckets, preserving source order within each bucket. -/
def rebuild (src : List Entity) : VerticalProbe :=
  { arcs := src.filter isArcT
    circs := src.filter isCircleT
    polys := src.filter isPolyT
    lines := src.filter isLineT }

/-- The inner loop of `highest_y` over one bucket:
`best = y if best is None else max(best, y)`. -/
def bucketBest (F : Fns) (x : ℚ) (b : List Entity) : Option ℚ :=
  b.foldl (fun acc e => bestFold acc (y_at_x F e x)) none

/-- `VerticalProbe.highest_y`: visit the buckets in the fixed order
arcs, circles, polylines, lines and return the first bucket's best hit. -/
def highest_y (F : Fns) (p : VerticalProbe) (x : ℚ) : Option ℚ :=
  match bucketBest F x p.arcs with
  | some y => some y
  | none =>
    match bucketBest F x p.circs with
    | some y => some y
    | none =>
      match bucketBest F x p.polys with
      | some y => some y
      | none =>
        match bucketBest F x p.lines with
        | some y => some y
        | none => none

/-! ## Specification-side geometry definitions -/

/-- Specification-side description of one bucket's contribution: the
maximum intersection `y` over the bucket, `none` if nothing intersects. -/
def maxHit (F : Fns) (b : List Entity) (x : ℚ) : Option ℚ :=
  (b.filterMap fun e => y_at_x F e x).max?

/-- Modelled from the spec: the arc's two candidate intersection heights
`center.y ± sqrt(radius² − dx²)`. -/
def arcCands (F : Fns) (a : ArcE) (x : ℚ) : List ℚ :=
  let s := F.sqrt (a.r * a.r - (x - a.cx) * (x - a.cx))
  [a.cy + s, a.cy - s]

/-- Modelled from the spec: the counter-clockwise angle-containment rule —
normalize all angles to `[0°, 360°)`; if `start ≤ end` require
`start ≤ a ≤ end`, otherwise treat the interval circularly
(`a ≥ start ∨ a ≤ end`). -/
def specContainsCCW (a s e : ℚ) : Prop :=
  let a' := qmod360 a
  let s' := qmod360 s
  let e' := qmod360 e
  if s' ≤ e' then s' ≤ a' ∧ a' ≤ e' else (a' ≥ s' ∨ a' ≤ e')

instance (a s e : ℚ) : Decidable (specContainsCCW a s e) :=
  inferInstanceAs (Decidable (if qmod360 s ≤ qmod360 e
    then qmod360 s ≤ qmod360 a ∧ qmod360 a ≤ qmod360 e
    else (qmod360 a ≥ qmod360 s ∨ qmod360 a ≤ qmod360 e)))

/-- Modelled from the spec: containment in the arc's own winding
direction — counter-clockwise uses the rule as is, clockwise swaps the
roles of start and end. -/
def specContains (a s e : ℚ) (ccw : Bool) : Prop :=
  if ccw then specContainsCCW a s e else specContainsCCW a e s

instance (a s e : ℚ) (ccw : Bool) : Decidable (specContains a s e ccw) :=
  inferInstanceAs (Decidable (if ccw then specContainsCCW a s e else specContainsCCW a e s))

/-- Modelled from the spec: whether an arc candidate height `y` is kept —
its polar angle about the arc's center lies within the start/end interval
measured in the arc's winding direction. -/
def arcKeep (F : Fns) (a : ArcE) (x y : ℚ) : Prop :=
  specContains (angle_deg F (x - a.cx) (y - a.cy)) a.sa a.ea (decide (a.extz ≥ 0))

instance (F : Fns) (a : ArcE) (x y : ℚ) : Decidable (arcKeep F a x y) :=
  inferInstanceAs (Decidable (specContains (angle_deg F (x - a.cx) (y - a.cy))
    a.sa a.ea (decide (a.extz ≥ 0))))

/-! ## Concrete test inputs -/

/-- A concrete, fully computable instantiation of the abstracted
transcendental primitives, used for concrete test inputs: a square-root
table for the few perfect squares the examples need, and the exact
`atan2` degrees on the coordinate axes. -/
def testFns : Fns where
  sqrt q := if q = 1 then 1 else if q = 4 then 2 else if q = 9 then 3 else 0
  atan2deg dy dx :=
    if dy = 0 ∧ dx ≥ 0 then 0
    else if dx = 0 ∧ dy > 0 then 90
    else if dy = 0 ∧ dx < 0 then 180
    else if dx = 0 ∧ dy < 0 then -90
    else 45

/-- A probe over an upper half-circle arc (radius 1 about the origin,
0°–180°, counter-clockwise) and a circle (radius 1 about `(0, 5)`): at
`x = 0` the arc intersects at `y = 1` and the circle, strictly higher,
at `y = 6`. -/
def prioProbe : VerticalProbe :=
  rebuild [Entity.arc ⟨0, 0, 1, 0, 180, 1⟩, Entity.circle ⟨0, 5, 1⟩]

/-- The arc used by the concrete examples: the upper half-circle of
radius 1 about the origin, counter-clockwise from 0° to 180°. -/
def arcA : ArcE := ⟨0, 0, 1, 0, 180, 1⟩

/-! ## The planner (`core/planner.py`) -/

/-- A sample point `(x, y)`. -/
abbrev Pt := ℚ × ℚ

/-- `_colinear(p0, p1, p2, tol=1e-3)`: twice the triangle area is within
tolerance. -/
def colinear (p0 p1 p2 : Pt) : Bool :=
  decide (|(p1.1 - p0.1) * (p2.2 - p0.2) - (p1.2 - p0.2) * (p2.1 - p0.1)|
    ≤ (1 / 1000 : ℚ))

/-- The interior loop of the smoothing reduction pass in
`build_smoothing_path`: walking the raw points, each candidate `p` is
tested against the previous *surviving* point `prev` and the next *raw*
point; the final point is appended unconditionally. -/
def reduceLoop (prev : Pt) : List Pt → List Pt
  | [] => []
  | [p] => [p]
  | p :: q :: rest =>
    if colinear prev p q then reduceLoop prev (q :: rest)
    else p :: reduceLoop p (q :: rest)

/-- The smoothing colinearity reduction pass (`build_smoothing_path`,
applied only when the list has at least 3 points; the first point is
always kept). -/
def reduce (pts : List Pt) : List Pt :=
  match pts with
  | p0 :: p1 :: p2 :: rest => p0 :: reduceLoop p0 (p1 :: p2 :: rest)
  | l => l

/-! ## The outline sampler (`core/probe.py`) -/

/-- The lateral-offset columns probed for each nominal `x`:
`blade_width * i / (offsets - 1)` for `i` in `0 .. offsets-1`. -/
def offsList (bladeW : ℚ) (offsets : ℕ) : List ℚ :=
  (List.range offsets).map fun i : ℕ => bladeW * (i : ℚ) / ((offsets : ℚ) - 1)

/-- The inner loop of `sample_outline` over the lateral offsets: tracks
`(best_y, best_x)`, replacing them when a probe returns a strictly higher
value (`best_x` is recorded but never used by the caller). -/
def sampleBestPair (F : Fns) (p : VerticalProbe) (x : ℚ) (offs : List ℚ) :
    Option ℚ × Option ℚ :=
  offs.foldl
    (fun acc dx =>
      match highest_y F p (x + dx) with
      | some y =>
        match acc.1 with
        | none => (some y, some (x + dx))
        | some b => if y > b then (some y, some (x + dx)) else acc
      | none => acc)
    (none, none)

/-- The `while x <= xmax` loop of `sample_outline`, with explicit fuel
(`none` = the fuel ran out while the guard still held).  A column whose
probes all miss contributes no sample; otherwise the sample is
`(x, best_y)` — the *nominal* column `x`, not `best_x`. -/
def sampleLoop (F : Fns) (p : VerticalProbe) (xmax xStep : ℚ) (offs : List ℚ) :
    ℕ → ℚ → Option (List Pt)
  | 0, x => if x ≤ xmax then none else some []
  | n + 1, x =>
    if x ≤ xmax then
      (sampleLoop F p xmax xStep offs n (x + xStep)).map fun rest =>
        match (sampleBestPair F p x offs).1 with
        | some y => (x, y) :: rest
        | none => rest
    else some []

/-- `sample_outline(mspace, xmin, xmax, blade_width, x_step, offsets=3)`. -/
def sampleOutline (F : Fns) (msp : List Entity) (xmin xmax bladeW xStep : ℚ)
    (offsets : ℕ) (fuel : ℕ) : Option (List Pt) :=
  sampleLoop F (rebuild msp) xmax xStep (offsList bladeW offsets) fuel xmin

/-- Specification-side: the positions visited by a guarded stepping loop
(`y, y + step, …` while the guard holds), with the same fuel semantics as
the source loops (`none` = fuel exhausted while the guard held). -/
def stepList (cond : ℚ → Bool) (step : ℚ) : ℕ → ℚ → Option (List ℚ)
  | 0, y => if cond y then none else some []
  | n + 1, y =>
    if cond y then (stepList cond step n (y + step)).map fun ys => y :: ys
    else some []

/-- Specification-side: the scaffold of visited `x` positions of
`sample_outline` (`xmin, xmin + step, …` while `x ≤ xmax`). -/
def gridXs (xmax xStep : ℚ) : ℕ → ℚ → Option (List ℚ) :=
  stepList (fun x => decide (x ≤ xmax)) xStep

/-- Specification-side: the maximum probe value over the lateral offsets
at a column `x`, `none` if every offset misses. -/
def colMax (F : Fns) (p : VerticalProbe) (offs : List ℚ) (x : ℚ) : Option ℚ :=
  (offs.filterMap fun dx => highest_y F p (x + dx)).max?

/-! ## Post-processor parameters (`OsaiPost.__init__` / `BretonPost.__init__`) -/

/-- The generation parameters kept by both post processors: traverse
start/end, derived stripe step, clearance/max heights, feeds, blade data
and the axis-inversion flag. -/
structure PostParams where
  y0 : ℚ
  y1 : ℚ
  yStep : ℚ
  zClear : ℚ
  zMax : ℚ
  fPlunge : ℚ
  fCut : ℚ
  fXY : ℚ
  bladeW : ℚ
  bladeD : ℚ
  invert : Bool
deriving DecidableEq

/-- The `__init__` derivations shared by both posts:
`y_step = abs(y_step or blade_width)` (Python falsy `or`: `None` and `0.0`
both fall back to the blade width) and `f_xy = cut_feed_xy or cut_feed`. -/
def mkPostParams (bladeW bladeD yStart yEnd : ℚ) (yStepArg : Option ℚ)
    (zClear zMax fPlunge fCut : ℚ) (fXYArg : Option ℚ) (invert : Bool) : PostParams :=
  { y0 := yStart
    y1 := yEnd
    yStep := |pyOr yStepArg bladeW|
    zClear := zClear
    zMax := zMax
    fPlunge := fPlunge
    fCut := fCut
    fXY := pyOr fXYArg fCut
    bladeW := bladeW
    bladeD := bladeD
    invert := invert }

/-! ## Emitted program lines -/

/-- One emitted program line, structurally: a comment (kept positionally,
as a tag), a fixed boilerplate line, a rapid move `G0` (with an optional
rotary orientation code), or a feed move `G1`.  Coordinates are the
axis-letter/value pairs in the exact order `_xyz` emits them. -/
inductive GLine where
  | comment (tag : String)
  | raw (s : String)
  | g0 (coords : List (String × ℚ)) (orient : Option String)
  | g1 (coords : List (String × ℚ)) (feed : ℚ)
deriving DecidableEq

/-- The `X.. Y.. Z..` part assembly of `_xyz` (present coordinates in
that fixed order). -/
def parts (x y z : Option ℚ) : List (String × ℚ) :=
  (x.map fun v => (("X" : String), v)).toList
    ++ (y.map fun v => (("Y" : String), v)).toList
    ++ (z.map fun v => (("Z" : String), v)).toList

/-- `_xyz(x, y, z)`: when the inversion flag is set, swap x and y
immediately before formatting. -/
def xyzFmt (inv : Bool) (x y z : Option ℚ) : List (String × ℚ) :=
  if inv then parts y x z else parts x y z

/-- The rotary/orientation code attached to positioning rapids:
`"C0 A0"` when inverted, `"C-90 A0"` otherwise. -/
def cCode (inv : Bool) : String := if inv then "C0 A0" else "C-90 A0"

/-! ## The shared motion algorithm (`generate`) -/

/-- One roughing cycle (both dialects emit the same five lines per
point): comment, retract to clearance, rapid to `(x, y0)` with the
orientation code, plunge to the point's depth at plunge feed, cut to
`y1` at cut feed. -/
def roughCycle (P : PostParams) (pt : Pt) : List GLine :=
  [GLine.comment ("Rough #"),
   GLine.g0 (xyzFmt P.invert none none (some P.zClear)) none,
   GLine.g0 (xyzFmt P.invert (some pt.1) (some P.y0) none) (some (cCode P.invert)),
   GLine.g1 (xyzFmt P.invert none none (some pt.2)) P.fPlunge,
   GLine.g1 (xyzFmt P.invert none (some P.y1) none) P.fCut]

/-- The roughing `for` loop: one cycle per point, in input order. -/
def roughLines (P : PostParams) : List Pt → List GLine
  | [] => []
  | pt :: rest => roughCycle P pt ++ roughLines P rest

/-- The signed stripe step: `-y_step` when `y0 > y1`, else `+y_step`. -/
def smoothStep (P : PostParams) : ℚ := if P.y0 > P.y1 then -P.yStep else P.yStep

/-- The stripe loop guard: `y >= y1` when stepping down, `y <= y1` when
stepping up. -/
def smoothCond (P : PostParams) (y : ℚ) : Bool :=
  if smoothStep P < 0 then decide (y ≥ P.y1) else decide (y ≤ P.y1)

/-- The body of one smoothing stripe (without the inter-stripe move):
stripe comment; on the first stripe a retract, a rapid to the stripe's
first point with the orientation code and a plunge to its depth; on
every later stripe only a rapid to the stripe's first point; then the
alignment cut to the stripe's `y` and one cut per point of the stripe's
sequence (reversed on alternating stripes) at the lateral feed. -/
def stripeLines (P : PostParams) (smooth : List Pt) (y : ℚ) (dirF first : Bool) :
    List GLine :=
  let seq := if dirF then smooth else smooth.reverse
  let f := seq.headD (0, 0)
  [GLine.comment ("stripe")]
    ++ (if first then
        [GLine.g0 (xyzFmt P.invert none none (some P.zClear)) none,
         GLine.g0 (xyzFmt P.invert (some f.1) (some y) none) (some (cCode P.invert)),
         GLine.g1 (xyzFmt P.invert none none (some f.2)) P.fPlunge]
      else [GLine.g0 (xyzFmt P.invert (some f.1) (some y) none) none])
    ++ [GLine.g1 (xyzFmt P.invert none (some y) none) P.fCut]
    ++ seq.map fun q => GLine.g1 (xyzFmt P.invert (some q.1) none (some q.2)) P.fXY

/-- The smoothing `while` loop, with explicit fuel: while the guard
holds, emit the stripe's lines, then — if another stripe remains — a
single move to the next stripe's `y` at plunge feed; advance `y` by the
signed step and flip the direction flag. -/
def smoothLoop (P : PostParams) (smooth : List Pt) :
    ℕ → ℚ → Bool → Bool → Option (List GLine)
  | 0, y, _, _ => if smoothCond P y then none else some []
  | n + 1, y, dirF, first =>
    if smoothCond P y then
      (smoothLoop P smooth n (y + smoothStep P) (!dirF) false).map fun rest =>
        stripeLines P smooth y dirF first
          ++ (if smoothCond P (y + smoothStep P)
              then [GLine.g1 (xyzFmt P.invert none (some (y + smoothStep P)) none)
                P.fPlunge]
              else [])
          ++ rest
    else some []

/-- Specification-side: the stripe traverse positions the smoothing loop
visits (`y0, y0 + step, …` while the guard holds), same fuel semantics. -/
def stripeYs (P : PostParams) : ℕ → ℚ → Option (List ℚ) :=
  stepList (smoothCond P) (smoothStep P)

/-- Specification-side: the serpentine block laid out along a given list
of stripe positions — only the head stripe gets the `first` treatment,
the direction flag alternates, and an inter-stripe plunge-feed move to
the next position is emitted exactly when a next stripe exists. -/
def blocksFrom (P : PostParams) (smooth : List Pt) :
    List ℚ → Bool → Bool → List GLine
  | [], _, _ => []
  | y :: ys, dirF, first =>
    stripeLines P smooth y dirF first
      ++ (match ys with
          | [] => []
          | y2 :: _ => [GLine.g1 (xyzFmt P.invert none (some y2) none) P.fPlunge])
      ++ blocksFrom P smooth ys (!dirF) false

/-! ## The two dialects -/

/-- The fixed Osai program header (comment payloads kept as tags). -/
def osaiHeader : List GLine :=
  [GLine.comment ("banner"), GLine.comment ("SlabCAM - Osai roughing + smoothing"),
   GLine.comment ("Roughing cuts"), GLine.comment ("Blade width"),
   GLine.comment ("Blade diameter"), GLine.comment ("Invert X/Y"),
   GLine.comment ("banner"),
   GLine.raw ("(UAO,3)"), GLine.raw ("M18"), GLine.raw ("M30 S1500"),
   GLine.raw (";")]

/-- The fixed Osai program footer. -/
def osaiFooter : List GLine :=
  [GLine.raw ("M31"), GLine.raw ("M32"), GLine.raw (";"), GLine.raw ("")]

/-- The Osai smoothing banner comments. -/
def osaiSmoothBanner : List GLine :=
  [GLine.comment ("===="), GLine.comment ("SMOOTHING PASSES"), GLine.comment ("====")]

/-- The common end of the smoothing block: comment, retract to
clearance, `M18`. -/
def smoothEnd (P : PostParams) : List GLine :=
  [GLine.comment ("end smoothing"),
   GLine.g0 (xyzFmt P.invert none none (some P.zClear)) none,
   GLine.raw ("M18")]

/-- `OsaiPost.generate`: header, roughing cycles, retract, optional
smoothing block (banner, serpentine body, block end), footer.  `none`
when the smoothing loop's fuel runs out. -/
def osaiGenerate (P : PostParams) (pts smooth : List Pt) (fuel : ℕ) :
    Option (List GLine) :=
  match smooth with
  | [] => some (osaiHeader ++ roughLines P pts ++ [GLine.raw ("M18")] ++ osaiFooter)
  | _ :: _ =>
    (smoothLoop P smooth fuel P.y0 true true).map fun body =>
      osaiHeader ++ roughLines P pts ++ [GLine.raw ("M18")]
        ++ osaiSmoothBanner ++ body ++ smoothEnd P ++ osaiFooter

/-- The fixed Breton program header (the `N`-numbering option is output
formatting and not modelled; `orientation` and `work_plane` are the
constructor's string parameters). -/
def bretonHeader (orientation workPlane : String) : List GLine :=
  [GLine.comment ("Breton G-code"), GLine.raw ("BRETON_INIT(0)"), GLine.raw ("G518"),
   GLine.raw ("BRETON_WAREA(\"MILL\")"), GLine.raw ("BRETON_PRE_TOOL"),
   GLine.raw ("BRETON_CHGTOOL"), GLine.raw ("BRETON_POST_TOOL(5,0)"),
   GLine.raw ("BRETON_ORIENTATION(" ++ orientation ++ ")"),
   GLine.raw ("BRETON_SETWPLANE(" ++ workPlane ++ ")"),
   GLine.raw ("MS1"), GLine.raw ("M4S1600"), GLine.raw ("M07")]

/-- The fixed Breton program footer. -/
def bretonFooter : List GLine := [GLine.raw ("BRETON_ENDPRG"), GLine.raw ("M30")]

/-- `BretonPost.generate`: same motion algorithm as Osai between
Breton-specific framing (no smoothing banner). -/
def bretonGenerate (P : PostParams) (orientation workPlane : String)
    (pts smooth : List Pt) (fuel : ℕ) : Option (List GLine) :=
  match smooth with
  | [] => some (bretonHeader orientation workPlane ++ roughLines P pts
      ++ [GLine.raw ("M18")] ++ bretonFooter)
  | _ :: _ =>
    (smoothLoop P smooth fuel P.y0 true true).map fun body =>
      bretonHeader orientation workPlane ++ roughLines P pts ++ [GLine.raw ("M18")]
        ++ body ++ smoothEnd P ++ bretonFooter

/-! ## Axis-inversion machinery (for C8) -/

/-- Relabel a coordinate block's X and Y entries (the Z entry is kept):
the structured effect of flipping the inversion flag on one `_xyz` call. -/
def swapXY (l : List (String × ℚ)) : List (String × ℚ) :=
  parts (List.lookup ("Y") l) (List.lookup ("X") l) (List.lookup ("Z") l)

/-- Exchange the two rotary orientation codes. -/
def swapOrient (s : String) : String :=
  if s = "C-90 A0" then "C0 A0" else if s = "C0 A0" then "C-90 A0" else s

/-- The per-line effect of flipping the inversion flag: swap each motion
line's X/Y labels and exchange the orientation code; comments and
boilerplate are untouched. -/
def invLine : GLine → GLine
  | .g0 c o => .g0 (swapXY c) (o.map swapOrient)
  | .g1 c f => .g1 (swapXY c) f
  | l => l

/-! ## The operations layer (`core/operations.py`) -/

/-- The drawing wrapper: the entity source and its extents
`(xmin, ymin, xmax, ymax)`. -/
structure Dxf where
  entities : List Entity
  xminE : ℚ
  yminE : ℚ
  xmaxE : ℚ
  ymaxE : ℚ
deriving DecidableEq

/-- The `tool_settings` section of the configuration. -/
structure ToolSettings where
  blade_width : ℚ
  blade_diameter : ℚ
deriving DecidableEq

/-- The `toolpath_settings` section; `Option` fields model keys read via
`.get(key, default)` (missing = `none`); `stop` models the `"end"` key. -/
structure ToolpathSettings where
  roughing_stepover : ℚ
  smoothing_resolution : ℚ
  stock_allowance : Option ℚ
  smoothing_stock : Option ℚ
  start : Option ℚ
  stop : Option ℚ
  smoothing_step : Option ℚ
  plunge_feed : Option ℚ
  roughing_feedrate : Option ℚ
  smoothing_feedrate : Option ℚ
deriving DecidableEq

/-- The `machine_settings` section. -/
structure MachineSettings where
  controller : Option String
  table_orientation : Option String
  z_clearance : Option ℚ
  z_max : Option ℚ
deriving DecidableEq

/-- The configuration record. -/
structure Cfg where
  machine_settings : MachineSettings
  tool_settings : ToolSettings
  toolpath_settings : ToolpathSettings
deriving DecidableEq

/-- `probe.Path`: sampled points plus a stage label. -/
structure Path where
  points : List Pt
  label : String
deriving DecidableEq

/-- `planner.build_roughing_path`: sample over
`[xmin - blade_w, xmax + blade_w]` at the roughing stepover, optionally
shift by the stock allowance, label `"roughing"`. -/
def build_roughing_path (F : Fns) (d : Dxf) (cfg : Cfg) (fuel : ℕ) : Option Path :=
  let blade_w := cfg.tool_settings.blade_width
  let x_step := cfg.toolpath_settings.roughing_stepover
  let stock := cfg.toolpath_settings.stock_allowance.getD 0
  (sampleOutline F d.entities (d.xminE - blade_w) (d.xmaxE + blade_w) blade_w
      x_step 3 fuel).map fun pts =>
    let pts := if stock ≠ 0 then pts.map (fun q => (q.1, q.2 + stock)) else pts
    { points := pts, label := "roughing" }

/-- `planner.build_smoothing_path`: sample over `[xmin - blade_w, xmax]`
at the smoothing resolution, optional stock shift, then the colinearity
reduction (applied when at least 3 points), label `"smoothing"`. -/
def build_smoothing_path (F : Fns) (d : Dxf) (cfg : Cfg) (fuel : ℕ) : Option Path :=
  let blade_w := cfg.tool_settings.blade_width
  let x_step := cfg.toolpath_settings.smoothing_resolution
  let stock := cfg.toolpath_settings.smoothing_stock.getD 0
  (sampleOutline F d.entities (d.xminE - blade_w) d.xmaxE blade_w
      x_step 3 fuel).map fun pts =>
    let pts := if stock ≠ 0 then pts.map (fun q => (q.1, q.2 + stock)) else pts
    let pts := reduce pts
    { points := pts, label := "smoothing" }

/-- `operations.generate_path`: build the labelled path, then raise
(`Except.error`) on an unknown label, an empty point list, or a
smoothing path with fewer than 2 points. -/
def generate_path (F : Fns) (d : Dxf) (cfg : Cfg) (label : String) (fuel : ℕ) :
    Option (Except String Path) :=
  let built : Option (Except String Path) :=
    if label = "roughing" then (build_roughing_path F d cfg fuel).map Except.ok
    else if label = "smoothing" then (build_smoothing_path F d cfg fuel).map Except.ok
    else some (Except.error ("Unknown path label: " ++ label))
  match built with
  | none => none
  | some (Except.error e) => some (Except.error e)
  | some (Except.ok path) =>
    if path.points = [] then some (Except.error ("No points found"))
    else if label = "smoothing" ∧ path.points.length < 2 then
      some (Except.error ("Not enough points for smoothing"))
    else some (Except.ok path)

/-- `operations.export_gcode`: gather the roughing points (all
`"roughing"` passes, in order) and the first `"smoothing"` pass, fail
before producing anything if there are no roughing points, otherwise
build the dialect's post processor from the configuration and generate.
The returned line list is the program that would be written to disk. -/
def export_gcode (passes : List Path) (cfg : Cfg) (fuel : ℕ) :
    Option (Except String (List GLine)) :=
  let mach := cfg.machine_settings
  let tool := cfg.tool_settings
  let tp := cfg.toolpath_settings
  let controller := mach.controller.getD ("Osai")
  let rough_pts := (passes.filter fun p => p.label = "roughing").flatMap
    fun p => p.points
  let smooth_pts := (passes.find? fun p => p.label = "smoothing").map fun p => p.points
  if rough_pts = [] then some (Except.error ("Need at least one roughing path"))
  else
    let P := mkPostParams tool.blade_width tool.blade_diameter
      (tp.start.getD 1000) (tp.stop.getD 500)
      (some (tp.smoothing_step.getD tool.blade_width))
      (mach.z_clearance.getD 50) (mach.z_max.getD 100)
      (tp.plunge_feed.getD 500) (tp.roughing_feedrate.getD 2000)
      (some (tp.smoothing_feedrate.getD 800))
      (decide (mach.table_orientation = some ("side")))
    if controller = "Breton" then
      (bretonGenerate P ("0.0000,0.0000,,,,0,0") ("0,0,0,0,0,0")
        rough_pts (smooth_pts.getD []) fuel).map Except.ok
    else
      (osaiGenerate P rough_pts (smooth_pts.getD []) fuel).map Except.ok

/-! ## Helper lemmas about folds and maxima -/

theorem bestFold_none (acc : Option ℚ) : bestFold acc none = acc := rfl

theorem bestFold_eq_omax (acc y : Option ℚ) : bestFold acc y = omax acc y := by
  cases acc <;> cases y <;> rfl

theorem omax_assoc (a b c : Option ℚ) : omax (omax a b) c = omax a (omax b c) := by
  cases a <;> cases b <;> cases c <;> simp [omax, max_assoc]

theorem omax_none_right (a : Option ℚ) : omax a none = a := by
  cases a <;> rfl

/-- The library maximum of a consed list as an `omax`. -/
theorem max?_cons_omax (v : ℚ) (l : List ℚ) :
    (v :: l).max? = omax (some v) l.max? := by
  rw [List.max?_cons]
  cases h : l.max? <;> simp [omax, Option.elim]

/-- The source's fold with `bestFold` over the images of `f` computes the
library maximum of the hits. -/
theorem foldl_bestFold_eq_max? {α : Type} (f : α → Option ℚ) (l : List α) :
    l.foldl (fun acc e => bestFold acc (f e)) none = (l.filterMap f).max? := by
  have key : ∀ acc, l.foldl (fun acc e => omax acc (f e)) acc
      = omax acc (l.filterMap f).max? := by
    induction l with
    | nil => intro acc; cases acc <;> rfl
    | cons e t ih =>
      intro acc
      rw [List.foldl_cons]
      cases hf : f e with
      | none =>
        rw [omax_none_right, ih]
        simp only [List.filterMap_cons, hf]
      | some v =>
        rw [ih]
        simp only [List.filterMap_cons, hf, max?_cons_omax, ← omax_assoc]
  have conv1 : l.foldl (fun acc e => bestFold acc (f e)) none
      = l.foldl (fun acc e => omax acc (f e)) none := by
    simp only [bestFold_eq_omax]
  rw [conv1]
  exact key none

theorem bucketBest_eq_maxHit (F : Fns) (x : ℚ) (b : List Entity) :
    bucketBest F x b = maxHit F b x := by
  unfold bucketBest maxHit
  exact foldl_bestFold_eq_max? _ _

/-- C1: `highest_y` visits the variant buckets in the fixed order Arc,
Circle, Polyline, Segment and returns the maximum intersection `y` of
the first bucket yielding any intersection, never examining later
buckets; with an Arc at `y = 1` and a Circle strictly higher at `y = 6`
the Arc's lower value is returned; with no intersection at all the
result is `none`, not zero. -/
theorem claim_C1 :
    (∀ (F : Fns) (p : VerticalProbe) (x : ℚ),
      highest_y F p x =
        ((maxHit F p.arcs x).orElse fun _ =>
          ((maxHit F p.circs x).orElse fun _ =>
            ((maxHit F p.polys x).orElse fun _ => maxHit F p.lines x))))
    ∧ highest_y testFns prioProbe 0 = some 1
    ∧ maxHit testFns prioProbe.circs 0 = some 6
    ∧ highest_y testFns (rebuild []) 0 = none := by
  refine ⟨fun F p x => ?_, ?_, ?_, ?_⟩
  · unfold highest_y
    rw [bucketBest_eq_maxHit, bucketBest_eq_maxHit, bucketBest_eq_maxHit,
      bucketBest_eq_maxHit]
    cases maxHit F p.arcs x <;> cases maxHit F p.circs x <;>
      cases maxHit F p.polys x <;> cases maxHit F p.lines x <;> rfl
  · have harc : y_arc testFns ⟨0, 0, 1, 0, 180, 1⟩ 0 = some 1 := by
      norm_num [y_arc, testFns, angle_deg, qmod360, on_arc, on_arc_ccw,
        List.filterMap_cons, List.max?]
    have hp : prioProbe
        = ⟨[Entity.arc ⟨0, 0, 1, 0, 180, 1⟩], [Entity.circle ⟨0, 5, 1⟩], [], []⟩ := rfl
    rw [hp]
    unfold highest_y bucketBest
    simp only [List.foldl_cons, List.foldl_nil, y_at_x, harc, bestFold]
  · have hcirc : y_circle testFns ⟨0, 5, 1⟩ 0 = some 6 := by
      norm_num [y_circle, testFns]
    have hp : prioProbe
        = ⟨[Entity.arc ⟨0, 0, 1, 0, 180, 1⟩], [Entity.circle ⟨0, 5, 1⟩], [], []⟩ := rfl
    rw [hp]
    unfold maxHit
    simp only [List.filterMap_cons, List.filterMap_nil, y_at_x, hcirc, List.max?,
      List.foldl_nil]
  · rfl

/-! ## C5/C6: the per-primitive solvers -/

theorem on_arc_ccw_iff (a s e : ℚ) : on_arc_ccw a s e = true ↔ specContainsCCW a s e := by
  by_cases h : qmod360 s ≤ qmod360 e <;> simp [on_arc_ccw, specContainsCCW, h]

theorem on_arc_iff (a s e : ℚ) (ccw : Bool) :
    on_arc a s e ccw = true ↔ specContains a s e ccw := by
  cases ccw <;> simp [on_arc, specContains, on_arc_ccw_iff]

theorem on_arc_eq_keep (F : Fns) (a : ArcE) (x y : ℚ) :
    (on_arc (angle_deg F (x - a.cx) (y - a.cy)) a.sa a.ea (decide (a.extz ≥ 0)) = true)
      ↔ arcKeep F a x y := on_arc_iff _ _ _ _

/-- Under the in-range guard, `_y_arc` is the maximum of the candidate
heights filtered by the winding-direction containment test. -/
theorem y_arc_eq (F : Fns) (a : ArcE) (x : ℚ) (h : ¬(|x - a.cx| > a.r)) :
    y_arc F a x = ((arcCands F a x).filter fun y => decide (arcKeep F a x y)).max? := by
  unfold y_arc arcCands
  rw [if_neg h]
  simp only [List.filterMap_cons, List.filterMap_nil, List.filter_cons, List.filter_nil,
    on_arc_eq_keep, decide_eq_true_eq]
  by_cases k1 : arcKeep F a x (a.cy + F.sqrt (a.r * a.r - (x - a.cx) * (x - a.cx))) <;>
    by_cases k2 : arcKeep F a x (a.cy - F.sqrt (a.r * a.r - (x - a.cx) * (x - a.cx))) <;>
    simp [k1, k2]

/-- C5: probing an Arc at an `x` with `|x − center.x| ≤ radius` computes
both candidates `center.y ± sqrt(radius² − dx²)`; a candidate survives
exactly when its polar angle about the center is contained in the
arc's start/end interval measured in its winding direction (the
spec's normalized, circular containment rule); the result is the
maximum surviving `y`, or `none` when no candidate survives. -/
theorem claim_C5 (F : Fns) (a : ArcE) (x : ℚ) (h : |x - a.cx| ≤ a.r) :
    (∀ y, y_arc F a x = some y ↔
        (y ∈ arcCands F a x ∧ arcKeep F a x y ∧
          ∀ z ∈ arcCands F a x, arcKeep F a x z → z ≤ y))
    ∧ (y_arc F a x = none ↔ ∀ y ∈ arcCands F a x, ¬ arcKeep F a x y) := by
  rw [y_arc_eq F a x (not_lt.2 h)]
  constructor
  · intro y
    rw [List.max?_eq_some_iff (fun q => le_refl q) (fun q w => max_choice q w)
      (fun q w u => max_le_iff)]
    simp only [List.mem_filter, decide_eq_true_eq]
    constructor
    · rintro ⟨⟨hmem, hk⟩, hub⟩
      exact ⟨hmem, hk, fun z hz hkz => hub z ⟨hz, hkz⟩⟩
    · rintro ⟨hmem, hk, hub⟩
      exact ⟨⟨hmem, hk⟩, fun z hz => hub z hz.1 hz.2⟩
  · rw [List.max?_eq_none_iff, List.filter_eq_nil_iff]
    simp only [decide_eq_true_eq]

/-- Witness for C5 at the concrete upper half-circle arc probed at 0. -/
theorem claim_C5_witness :
    (|(0:ℚ) - arcA.cx| ≤ arcA.r)
    ∧ ((∀ y, y_arc testFns arcA 0 = some y ↔
          (y ∈ arcCands testFns arcA 0 ∧ arcKeep testFns arcA 0 y ∧
            ∀ z ∈ arcCands testFns arcA 0, arcKeep testFns arcA 0 z → z ≤ y))
      ∧ (y_arc testFns arcA 0 = none ↔
          ∀ y ∈ arcCands testFns arcA 0, ¬ arcKeep testFns arcA 0 y)) :=
  ⟨by norm_num [arcA], claim_C5 testFns arcA 0 (by norm_num [arcA])⟩

/-- C6 (amended): probing a Circle returns the upper intersection
`center.y + sqrt(radius² − dx²)` whenever `|dx| ≤ radius` — including
the degenerate radius-0 circle at `x = center.x`, which reports its
single point rather than "no intersection" — and `none` whenever
`|dx| > radius`; in particular any circle with negative radius never
intersects, and probing is total (never raises). -/
theorem claim_C6 (F : Fns) (c : CircleE) (x : ℚ) :
    (|x - c.cx| ≤ c.r →
        y_circle F c x = some (c.cy + F.sqrt (c.r * c.r - (x - c.cx) * (x - c.cx))))
    ∧ (c.r < |x - c.cx| → y_circle F c x = none)
    ∧ (c.r < 0 → y_circle F c x = none) := by
  refine ⟨fun h => ?_, fun h => ?_, fun h => ?_⟩ <;> unfold y_circle
  · rw [if_neg (not_lt.2 h)]
  · rw [if_pos h]
  · exact if_pos (lt_of_lt_of_le h (abs_nonneg _))

/-- C6 counterexample: the claim says degenerate geometry (radius ≤ 0) is
reported as **no intersection**, but a radius-0 circle probed exactly at
its center's x reports `some center.y`. -/
theorem claim_C6_cex :
    ((0:ℚ) ≤ 0) ∧ y_circle testFns ⟨0, 0, 0⟩ 0 = some 0 := by
  refine ⟨le_refl 0, ?_⟩
  norm_num [y_circle, testFns]

/-- Witness for C6 (amended) on a radius-2 circle probed at `x = 1`. -/
theorem claim_C6_witness :
    (|(1:ℚ) - (0:ℚ)| ≤ 2)
    ∧ y_circle testFns ⟨0, 0, 2⟩ 1
        = some (0 + testFns.sqrt (2 * 2 - (1 - 0) * (1 - 0))) :=
  ⟨by norm_num, (claim_C6 testFns ⟨0, 0, 2⟩ 1).1 (by norm_num)⟩

theorem reduceLoop_sublist (prev : Pt) (l : List Pt) :
    List.Sublist (reduceLoop prev l) l := by
  induction l generalizing prev with
  | nil => exact List.Sublist.refl _
  | cons p t ih =>
    cases t with
    | nil => exact List.Sublist.refl _
    | cons q rest =>
      show List.Sublist (reduceLoop prev (p :: q :: rest)) _
      unfold reduceLoop
      split
      · exact List.Sublist.cons p (ih prev)
      · exact List.Sublist.cons₂ p (ih p)

theorem reduce_sublist (pts : List Pt) : List.Sublist (reduce pts) pts := by
  match pts with
  | [] => exact List.Sublist.refl _
  | [p] => exact List.Sublist.refl _
  | [p, q] => exact List.Sublist.refl _
  | p0 :: p1 :: p2 :: rest =>
    exact List.Sublist.cons₂ p0 (reduceLoop_sublist p0 (p1 :: p2 :: rest))

theorem reduceLoop_ne_nil (prev : Pt) (l : List Pt) (h : l ≠ []) :
    reduceLoop prev l ≠ [] := by
  induction l generalizing prev with
  | nil => exact absurd rfl h
  | cons p t ih =>
    cases t with
    | nil => simp [reduceLoop]
    | cons q rest =>
      unfold reduceLoop
      split
      · exact ih prev (by simp)
      · simp

theorem getLast?_cons_ne_nil {α : Type} (a : α) (l : List α) (h : l ≠ []) :
    (a :: l).getLast? = l.getLast? := by
  cases l with
  | nil => exact absurd rfl h
  | cons b t => exact List.getLast?_cons_cons

theorem reduceLoop_getLast? (prev : Pt) (l : List Pt) (h : l ≠ []) :
    (reduceLoop prev l).getLast? = l.getLast? := by
  induction l generalizing prev with
  | nil => exact absurd rfl h
  | cons p t ih =>
    cases t with
    | nil => rfl
    | cons q rest =>
      unfold reduceLoop
      have htail : (q :: rest) ≠ [] := by simp
      split
      · rw [ih prev htail, getLast?_cons_ne_nil p _ htail]
      · rw [getLast?_cons_ne_nil p _ (reduceLoop_ne_nil p _ htail), ih p htail,
          getLast?_cons_ne_nil p _ htail]

theorem reduce_head? (pts : List Pt) : (reduce pts).head? = pts.head? := by
  match pts with
  | [] => rfl
  | [p] => rfl
  | [p, q] => rfl
  | p0 :: p1 :: p2 :: rest => rfl

theorem reduce_getLast? (pts : List Pt) : (reduce pts).getLast? = pts.getLast? := by
  match pts with
  | [] => rfl
  | [p] => rfl
  | [p, q] => rfl
  | p0 :: p1 :: p2 :: rest =>
    show (p0 :: reduceLoop p0 (p1 :: p2 :: rest)).getLast? = _
    rw [getLast?_cons_ne_nil p0 _ (reduceLoop_ne_nil p0 _ (by simp)),
      reduceLoop_getLast? p0 _ (by simp),
      getLast?_cons_ne_nil p0 (p1 :: p2 :: rest) (by simp)]

/-- C7 counterexample: the reduction is **not** idempotent.  On
`[(0,0), (10,0), (21/2, 1/2000), (11,0), (20,5)]` the first pass keeps
`(10,0)` (its area against the raw next point `(21/2, 1/2000)` is
`1/200 > 1e-3`) but drops `(21/2, 1/2000)`; the second pass then sees
`(0,0), (10,0), (11,0)` — exactly colinear — and drops `(10,0)` too. -/
theorem claim_C7_cex :
    reduce (reduce [((0:ℚ), (0:ℚ)), (10, 0), (21/2, 1/2000), (11, 0), (20, 5)])
      ≠ reduce [((0:ℚ), (0:ℚ)), (10, 0), (21/2, 1/2000), (11, 0), (20, 5)] := by
  norm_num [reduce, reduceLoop, colinear, abs_le]

/-- C7 (amended): the single-pass colinearity reduction (previous
*surviving* point vs next *raw* point, first and last always kept) is
not idempotent in general; re-applying it can only drop further points —
the second pass's output is a sublist of the first's — and every pass
preserves the first and last points. -/
theorem claim_C7 (pts : List Pt) :
    List.Sublist (reduce (reduce pts)) (reduce pts)
    ∧ (reduce pts).head? = pts.head?
    ∧ (reduce pts).getLast? = pts.getLast? :=
  ⟨reduce_sublist (reduce pts), reduce_head? pts, reduce_getLast? pts⟩

/-! ## Lemmas about the guarded stepping loops -/

theorem stepList_head (cond : ℚ → Bool) (step : ℚ) (n : ℕ) (y : ℚ) (l : List ℚ)
    (h : stepList cond step n y = some l) :
    (cond y = true → l.head? = some y) ∧ (cond y = false → l = []) := by
  cases n with
  | zero =>
    unfold stepList at h
    by_cases hc : cond y = true
    · rw [if_pos hc] at h
      exact absurd h (by simp)
    · rw [if_neg hc] at h
      exact ⟨fun h2 => absurd h2 hc, fun _ => (Option.some_inj.1 h).symm⟩
  | succ n =>
    unfold stepList at h
    by_cases hc : cond y = true
    · rw [if_pos hc] at h
      obtain ⟨ys, _, rfl⟩ := Option.map_eq_some'.1 h
      exact ⟨fun _ => rfl, fun h2 => by rw [hc] at h2; cases h2⟩
    · rw [if_neg hc] at h
      exact ⟨fun h2 => absurd h2 hc, fun _ => (Option.some_inj.1 h).symm⟩

theorem isSome_map_opt {α β : Type} (f : α → β) (o : Option α) :
    (o.map f).isSome = o.isSome := by
  cases o <;> rfl

theorem stepList_spec (cond : ℚ → Bool) (step : ℚ) :
    ∀ (n : ℕ) (y : ℚ) (l : List ℚ), stepList cond step n y = some l →
      l = (List.range l.length).map (fun k : ℕ => y + (k : ℚ) * step)
      ∧ (∀ z ∈ l, cond z = true)
      ∧ cond (y + (l.length : ℚ) * step) = false := by
  intro n
  induction n with
  | zero =>
    intro y l h
    unfold stepList at h
    by_cases hc : cond y = true
    · rw [if_pos hc] at h
      exact absurd h (by simp)
    · rw [if_neg hc] at h
      obtain rfl : ([] : List ℚ) = l := Option.some_inj.1 h
      have hcf : cond y = false := by
        revert hc; cases cond y <;> simp
      refine ⟨rfl, by simp, ?_⟩
      simpa using hcf
  | succ n ih =>
    intro y l h
    unfold stepList at h
    by_cases hc : cond y = true
    · rw [if_pos hc] at h
      obtain ⟨ys, hys, rfl⟩ := Option.map_eq_some'.1 h
      obtain ⟨h1, h2, h3⟩ := ih (y + step) ys hys
      refine ⟨?_, ?_, ?_⟩
      · simp only [List.length_cons, List.range_succ_eq_map, List.map_cons,
          List.map_map]
        congr 1
        · simp
        · conv_lhs => rw [h1]
          apply List.map_congr_left
          intro k _
          simp only [Function.comp_apply]
          push_cast
          ring
      · intro z hz
        rcases List.mem_cons.1 hz with hz | hz
        · exact hz ▸ hc
        · exact h2 z hz
      · have hgoal : y + (((y :: ys).length : ℕ) : ℚ) * step
            = (y + step) + (ys.length : ℚ) * step := by
          push_cast [List.length_cons]
          ring
        rw [hgoal]
        exact h3
    · rw [if_neg hc] at h
      obtain rfl : ([] : List ℚ) = l := Option.some_inj.1 h
      have hcf : cond y = false := by
        revert hc; cases cond y <;> simp
      refine ⟨rfl, by simp, ?_⟩
      simpa using hcf

theorem stepList_zero_step (cond : ℚ → Bool) :
    ∀ (n : ℕ) (y : ℚ), cond y = true → stepList cond 0 n y = none := by
  intro n
  induction n with
  | zero =>
    intro y hc
    unfold stepList
    rw [if_pos hc]
  | succ n ih =>
    intro y hc
    unfold stepList
    rw [if_pos hc, add_zero, ih y hc]
    rfl

theorem stepList_isSome_up (cond : ℚ → Bool) (step B : ℚ)
    (hmono : ∀ y, cond y = true → y ≤ B) (hstep : 0 < step) :
    ∀ (n : ℕ) (y : ℚ), (B - y) / step < n → (stepList cond step n y).isSome = true := by
  intro n
  induction n with
  | zero =>
    intro y h
    have h0 : B - y < 0 := by
      have h1 := (div_lt_iff₀ hstep).1 (by simpa using h)
      simpa using h1
    have hcf : cond y = false := by
      cases hcc : cond y
      · rfl
      · exact absurd (hmono y hcc) (by linarith)
    unfold stepList
    rw [hcf]
    simp
  | succ n ih =>
    intro y h
    unfold stepList
    by_cases hc : cond y = true
    · rw [if_pos hc, isSome_map_opt]
      apply ih
      have hdiv : (B - (y + step)) / step = (B - y) / step - 1 := by
        rw [show B - (y + step) = (B - y) - step by ring, sub_div,
          div_self (ne_of_gt hstep)]
      rw [hdiv]
      have hcast : ((n + 1 : ℕ) : ℚ) = (n : ℚ) + 1 := by push_cast; ring
      rw [hcast] at h
      linarith
    · rw [if_neg hc]
      rfl

theorem stepList_isSome_down (cond : ℚ → Bool) (step B : ℚ)
    (hmono : ∀ y, cond y = true → B ≤ y) (hstep : step < 0) :
    ∀ (n : ℕ) (y : ℚ), (y - B) / (-step) < n → (stepList cond step n y).isSome = true := by
  have hpos : 0 < -step := by linarith
  intro n
  induction n with
  | zero =>
    intro y h
    have h0 : y - B < 0 := by
      have h1 := (div_lt_iff₀ hpos).1 (by simpa using h)
      simpa using h1
    have hcf : cond y = false := by
      cases hcc : cond y
      · rfl
      · exact absurd (hmono y hcc) (by linarith)
    unfold stepList
    rw [hcf]
    simp
  | succ n ih =>
    intro y h
    unfold stepList
    by_cases hc : cond y = true
    · rw [if_pos hc, isSome_map_opt]
      apply ih
      have hdiv : ((y + step) - B) / (-step) = (y - B) / (-step) - 1 := by
        rw [show (y + step) - B = (y - B) - (-step) by ring, sub_div,
          div_self (ne_of_gt hpos)]
      rw [hdiv]
      have hcast : ((n + 1 : ℕ) : ℚ) = (n : ℚ) + 1 := by push_cast; ring
      rw [hcast] at h
      linarith
    · rw [if_neg hc]
      rfl

/-! ## C2: the roughing emission -/

theorem roughLines_eq_flatMap (P : PostParams) (pts : List Pt) :
    roughLines P pts = pts.flatMap (roughCycle P) := by
  induction pts with
  | nil => rfl
  | cons pt rest ih => simp [roughLines, List.flatMap_cons, ih]

/-- C2: for every non-empty roughing point list, both generators emit,
per point in input order, the cycle retract-to-clearance, rapid to
`(x, traverse_start)` with the inversion-dependent orientation code,
plunge to the point's depth at plunge feed, straight cut to
`traverse_end` at cut feed — followed by a single final retract (`M18`)
right after the last cycle. -/
theorem claim_C2 (P : PostParams) (orientation workPlane : String)
    (pts smooth : List Pt) (fuel : ℕ) (hne : pts ≠ []) :
    (∀ out, osaiGenerate P pts smooth fuel = some out →
      ∃ rest, out = osaiHeader
        ++ pts.flatMap (fun pt =>
            [GLine.comment ("Rough #"),
             GLine.g0 (xyzFmt P.invert none none (some P.zClear)) none,
             GLine.g0 (xyzFmt P.invert (some pt.1) (some P.y0) none)
               (some (cCode P.invert)),
             GLine.g1 (xyzFmt P.invert none none (some pt.2)) P.fPlunge,
             GLine.g1 (xyzFmt P.invert none (some P.y1) none) P.fCut])
        ++ GLine.raw ("M18") :: rest)
    ∧ (∀ out, bretonGenerate P orientation workPlane pts smooth fuel = some out →
      ∃ rest, out = bretonHeader orientation workPlane
        ++ pts.flatMap (fun pt =>
            [GLine.comment ("Rough #"),
             GLine.g0 (xyzFmt P.invert none none (some P.zClear)) none,
             GLine.g0 (xyzFmt P.invert (some pt.1) (some P.y0) none)
               (some (cCode P.invert)),
             GLine.g1 (xyzFmt P.invert none none (some pt.2)) P.fPlunge,
             GLine.g1 (xyzFmt P.invert none (some P.y1) none) P.fCut])
        ++ GLine.raw ("M18") :: rest) := by
  have hflat : (pts.flatMap (fun pt =>
      [GLine.comment ("Rough #"),
       GLine.g0 (xyzFmt P.invert none none (some P.zClear)) none,
       GLine.g0 (xyzFmt P.invert (some pt.1) (some P.y0) none)
         (some (cCode P.invert)),
       GLine.g1 (xyzFmt P.invert none none (some pt.2)) P.fPlunge,
       GLine.g1 (xyzFmt P.invert none (some P.y1) none) P.fCut]))
      = roughLines P pts := (roughLines_eq_flatMap P pts).symm
  constructor
  · intro out h
    cases smooth with
    | nil =>
      unfold osaiGenerate at h
      obtain rfl : _ = out := Option.some_inj.1 h
      refine ⟨osaiFooter, ?_⟩
      rw [hflat]
      simp [List.append_assoc]
    | cons s srest =>
      unfold osaiGenerate at h
      obtain ⟨body, _, rfl⟩ := Option.map_eq_some'.1 h
      refine ⟨osaiSmoothBanner ++ body ++ smoothEnd P ++ osaiFooter, ?_⟩
      rw [hflat]
      simp [List.append_assoc]
  · intro out h
    cases smooth with
    | nil =>
      unfold bretonGenerate at h
      obtain rfl : _ = out := Option.some_inj.1 h
      refine ⟨bretonFooter, ?_⟩
      rw [hflat]
      simp [List.append_assoc]
    | cons s srest =>
      unfold bretonGenerate at h
      obtain ⟨body, _, rfl⟩ := Option.map_eq_some'.1 h
      refine ⟨body ++ smoothEnd P ++ bretonFooter, ?_⟩
      rw [hflat]
      simp [List.append_assoc]

/-- The spec's end-to-end roughing example parameters: traverse from 100
to 50, plunge feed 500, cut feed 2000, no inversion. -/
def c2Params : PostParams := mkPostParams 5 400 100 50 none 50 100 500 2000 none false

/-- Witness for C2 at the spec's example: points `[(0,10), (10,20)]`. -/
theorem claim_C2_witness :
    (([((0:ℚ), (10:ℚ)), ((10:ℚ), (20:ℚ))] : List Pt) ≠ [])
    ∧ ((∀ out, osaiGenerate c2Params [((0:ℚ), (10:ℚ)), ((10:ℚ), (20:ℚ))] [] 1
          = some out →
        ∃ rest, out = osaiHeader
          ++ ([((0:ℚ), (10:ℚ)), ((10:ℚ), (20:ℚ))] : List Pt).flatMap (fun pt =>
              [GLine.comment ("Rough #"),
               GLine.g0 (xyzFmt c2Params.invert none none (some c2Params.zClear)) none,
               GLine.g0 (xyzFmt c2Params.invert (some pt.1) (some c2Params.y0) none)
                 (some (cCode c2Params.invert)),
               GLine.g1 (xyzFmt c2Params.invert none none (some pt.2)) c2Params.fPlunge,
               GLine.g1 (xyzFmt c2Params.invert none (some c2Params.y1) none)
                 c2Params.fCut])
          ++ GLine.raw ("M18") :: rest)
      ∧ (∀ out, bretonGenerate c2Params ("o") ("w")
            [((0:ℚ), (10:ℚ)), ((10:ℚ), (20:ℚ))] [] 1 = some out →
        ∃ rest, out = bretonHeader ("o") ("w")
          ++ ([((0:ℚ), (10:ℚ)), ((10:ℚ), (20:ℚ))] : List Pt).flatMap (fun pt =>
              [GLine.comment ("Rough #"),
               GLine.g0 (xyzFmt c2Params.invert none none (some c2Params.zClear)) none,
               GLine.g0 (xyzFmt c2Params.invert (some pt.1) (some c2Params.y0) none)
                 (some (cCode c2Params.invert)),
               GLine.g1 (xyzFmt c2Params.invert none none (some pt.2)) c2Params.fPlunge,
               GLine.g1 (xyzFmt c2Params.invert none (some c2Params.y1) none)
                 c2Params.fCut])
          ++ GLine.raw ("M18") :: rest)) :=
  ⟨by simp, claim_C2 c2Params ("o") ("w")
    [((0:ℚ), (10:ℚ)), ((10:ℚ), (20:ℚ))] [] 1 (by simp)⟩

/-! ## C3: the smoothing serpentine raster -/

theorem stripeYs_zero (P : PostParams) (y : ℚ) :
    stripeYs P 0 y = if smoothCond P y then none else some [] := rfl

theorem stripeYs_succ (P : PostParams) (n : ℕ) (y : ℚ) :
    stripeYs P (n + 1) y
      = if smoothCond P y
        then (stripeYs P n (y + smoothStep P)).map fun ys => y :: ys
        else some [] := rfl

/-- The translated smoothing `while` loop lays its lines out exactly as
`blocksFrom` along the visited stripe positions. -/
theorem smoothLoop_eq_blocks (P : PostParams) (smooth : List Pt) :
    ∀ (n : ℕ) (y : ℚ) (dirF first : Bool),
      smoothLoop P smooth n y dirF first
        = (stripeYs P n y).map fun ys => blocksFrom P smooth ys dirF first := by
  intro n
  induction n with
  | zero =>
    intro y dirF first
    unfold smoothLoop
    rw [stripeYs_zero]
    by_cases h : smoothCond P y = true
    · rw [if_pos h, if_pos h]
      rfl
    · rw [if_neg h, if_neg h]
      rfl
  | succ n ih =>
    intro y dirF first
    unfold smoothLoop
    rw [stripeYs_succ]
    by_cases h : smoothCond P y = true
    · rw [if_pos h, if_pos h, ih]
      cases hl : stripeYs P n (y + smoothStep P) with
      | none => rfl
      | some l =>
        simp only [Option.map_map, Option.map_some']
        congr 1
        have hh := stepList_head (smoothCond P) (smoothStep P) n (y + smoothStep P) l hl
        cases l with
        | nil =>
          have hcf : smoothCond P (y + smoothStep P) = false := by
            cases hcc : smoothCond P (y + smoothStep P)
            · rfl
            · have h2 := hh.1 hcc
              simp at h2
          simp [blocksFrom, hcf]
        | cons y2 l2 =>
          have hct : smoothCond P (y + smoothStep P) = true := by
            cases hcc : smoothCond P (y + smoothStep P)
            · have h2 := hh.2 hcc
              simp at h2
            · rfl
          have hy2 : y2 = y + smoothStep P := by
            have h2 := hh.1 hct
            simpa using h2
          subst hy2
          simp [blocksFrom, hct]
    · rw [if_neg h, if_neg h]
      rfl

/-- C3: the smoothing serpentine — given the loop completes within the
fuel (visited positions `ys`), the emitted body is `blocksFrom` along
`ys` (only the head stripe retracts/plunges, later stripes only rapid,
direction alternating from "forward"); the positions start at
`traverse_start` and advance by the signed step while the guard holds,
the signed step being `−y_step` when `traverse_start > traverse_end`
and `+y_step` otherwise, with the derived `y_step` defaulting to the
blade width when unsupplied. -/
theorem claim_C3 (P : PostParams) (smooth : List Pt) (n : ℕ) (ys : List ℚ)
    (hne : smooth ≠ []) (hys : stripeYs P n P.y0 = some ys) :
    smoothLoop P smooth n P.y0 true true = some (blocksFrom P smooth ys true true)
    ∧ ys = (List.range ys.length).map (fun k : ℕ => P.y0 + (k : ℚ) * smoothStep P)
    ∧ (∀ z ∈ ys, smoothCond P z = true)
    ∧ smoothCond P (P.y0 + (ys.length : ℚ) * smoothStep P) = false
    ∧ smoothStep P = (if P.y1 < P.y0 then -P.yStep else P.yStep)
    ∧ (∀ bw bd ya yb zc zm fp fc fxy inv,
        (mkPostParams bw bd ya yb none zc zm fp fc fxy inv).yStep = |bw|) := by
  obtain ⟨h1, h2, h3⟩ := stepList_spec (smoothCond P) (smoothStep P) n P.y0 ys hys
  refine ⟨?_, h1, h2, h3, rfl, fun bw bd ya yb zc zm fp fc fxy inv => rfl⟩
  rw [smoothLoop_eq_blocks, hys]
  rfl

/-- The spec's end-to-end smoothing example parameters: traverse 100
down to 90, stripe step 10. -/
def c3Params : PostParams := mkPostParams 5 400 100 90 (some 10) 50 100 500 2000 none false

/-- Witness for C3 at the spec's example: smoothing points
`[(0,5), (5,5)]`, stripe step 10, traverse 100 → 90 — exactly two
stripes, at 100 and at 90. -/
theorem claim_C3_witness :
    (([((0:ℚ), (5:ℚ)), ((5:ℚ), (5:ℚ))] : List Pt) ≠ [])
    ∧ stripeYs c3Params 3 c3Params.y0 = some [100, 90]
    ∧ (smoothLoop c3Params [((0:ℚ), (5:ℚ)), ((5:ℚ), (5:ℚ))] 3 c3Params.y0 true true
        = some (blocksFrom c3Params [((0:ℚ), (5:ℚ)), ((5:ℚ), (5:ℚ))] [100, 90] true true)
      ∧ [(100:ℚ), 90] = (List.range ([(100:ℚ), 90] : List ℚ).length).map
          (fun k : ℕ => c3Params.y0 + (k : ℚ) * smoothStep c3Params)
      ∧ (∀ z ∈ ([(100:ℚ), 90] : List ℚ), smoothCond c3Params z = true)
      ∧ smoothCond c3Params
          (c3Params.y0 + (([(100:ℚ), 90] : List ℚ).length : ℚ) * smoothStep c3Params)
          = false
      ∧ smoothStep c3Params
          = (if c3Params.y1 < c3Params.y0 then -c3Params.yStep else c3Params.yStep)
      ∧ (∀ bw bd ya yb zc zm fp fc fxy inv,
          (mkPostParams bw bd ya yb none zc zm fp fc fxy inv).yStep = |bw|)) := by
  have hys : stripeYs c3Params 3 c3Params.y0 = some [100, 90] := by
    norm_num [stripeYs, stepList, smoothCond, smoothStep, c3Params, mkPostParams, pyOr]
  exact ⟨by simp, hys,
    claim_C3 c3Params [((0:ℚ), (5:ℚ)), ((5:ℚ), (5:ℚ))] 3 [100, 90] (by simp) hys⟩

/-! ## C8: axis inversion -/

theorem swapXY_parts (x y z : Option ℚ) : swapXY (parts x y z) = parts y x z := by
  cases x <;> cases y <;> cases z <;> rfl

theorem swapOrient_cCode (b : Bool) : swapOrient (cCode b) = cCode (!b) := by
  cases b <;> rfl

theorem invLine_g0_parts (x y z : Option ℚ) (o : Option String) :
    invLine (GLine.g0 (parts x y z) o) = GLine.g0 (parts y x z) (o.map swapOrient) := by
  simp only [invLine]
  rw [swapXY_parts]

theorem invLine_g1_parts (x y z : Option ℚ) (f : ℚ) :
    invLine (GLine.g1 (parts x y z) f) = GLine.g1 (parts y x z) f := by
  simp only [invLine]
  rw [swapXY_parts]

theorem roughLines_invert (P : PostParams) (pts : List Pt) :
    roughLines {P with invert := true} pts
      = (roughLines {P with invert := false} pts).map invLine := by
  induction pts with
  | nil => rfl
  | cons pt rest ih =>
    simp [roughLines, List.map_append, ih, roughCycle, xyzFmt, swapOrient_cCode,
      invLine, swapXY_parts]

theorem stripeLines_invert (P : PostParams) (smooth : List Pt) (y : ℚ)
    (dirF first : Bool) :
    stripeLines {P with invert := true} smooth y dirF first
      = (stripeLines {P with invert := false} smooth y dirF first).map invLine := by
  cases first <;>
    simp [stripeLines, xyzFmt, swapOrient_cCode, invLine, swapXY_parts,
      List.map_append, List.map_map, Function.comp]

theorem smoothEnd_invert (P : PostParams) :
    smoothEnd {P with invert := true} = (smoothEnd {P with invert := false}).map invLine := by
  simp [smoothEnd, xyzFmt, invLine, swapXY_parts]

theorem smoothLoop_invert (P : PostParams) (smooth : List Pt) :
    ∀ (n : ℕ) (y : ℚ) (dirF first : Bool),
      smoothLoop {P with invert := true} smooth n y dirF first
        = (smoothLoop {P with invert := false} smooth n y dirF first).map
            (List.map invLine) := by
  intro n
  induction n with
  | zero =>
    intro y dirF first
    unfold smoothLoop
    by_cases h : smoothCond P y = true
    · rw [show smoothCond {P with invert := true} = smoothCond P from rfl,
        show smoothCond {P with invert := false} = smoothCond P from rfl,
        if_pos h]
      rfl
    · rw [show smoothCond {P with invert := true} = smoothCond P from rfl,
        show smoothCond {P with invert := false} = smoothCond P from rfl,
        if_neg h]
      rfl
  | succ n ih =>
    intro y dirF first
    unfold smoothLoop
    rw [show smoothCond {P with invert := true} = smoothCond P from rfl,
      show smoothCond {P with invert := false} = smoothCond P from rfl,
      show smoothStep {P with invert := true} = smoothStep P from rfl,
      show smoothStep {P with invert := false} = smoothStep P from rfl]
    by_cases h : smoothCond P y = true
    · rw [if_pos h, if_pos h, ih]
      cases hl : smoothLoop {P with invert := false} smooth n (y + smoothStep P)
          (!dirF) false with
      | none => rfl
      | some rest =>
        simp only [Option.map_some']
        congr 1
        rw [stripeLines_invert]
        by_cases h2 : smoothCond P (y + smoothStep P) = true <;>
          simp [h2, List.map_append, xyzFmt, invLine, swapXY_parts]
    · rw [if_neg h, if_neg h]
      rfl

theorem osaiGenerate_invert (P : PostParams) (pts smooth : List Pt) (fuel : ℕ) :
    osaiGenerate {P with invert := true} pts smooth fuel
      = (osaiGenerate {P with invert := false} pts smooth fuel).map
          (List.map invLine) := by
  cases smooth with
  | nil =>
    unfold osaiGenerate
    simp only [Option.map_some']
    congr 1
    rw [roughLines_invert]
    simp [List.map_append, osaiHeader, osaiFooter, invLine]
  | cons s srest =>
    unfold osaiGenerate
    rw [show ({P with invert := true} : PostParams).y0 = P.y0 from rfl,
      show ({P with invert := false} : PostParams).y0 = P.y0 from rfl,
      smoothLoop_invert]
    cases hl : smoothLoop {P with invert := false} (s :: srest) fuel P.y0 true true with
    | none => rfl
    | some body =>
      simp only [Option.map_some']
      congr 1
      rw [roughLines_invert, smoothEnd_invert]
      simp [List.map_append, osaiHeader, osaiFooter, osaiSmoothBanner, invLine]

theorem bretonGenerate_invert (P : PostParams) (ori wp : String)
    (pts smooth : List Pt) (fuel : ℕ) :
    bretonGenerate {P with invert := true} ori wp pts smooth fuel
      = (bretonGenerate {P with invert := false} ori wp pts smooth fuel).map
          (List.map invLine) := by
  cases smooth with
  | nil =>
    unfold bretonGenerate
    simp only [Option.map_some']
    congr 1
    rw [roughLines_invert]
    simp [List.map_append, bretonHeader, bretonFooter, invLine]
  | cons s srest =>
    unfold bretonGenerate
    rw [show ({P with invert := true} : PostParams).y0 = P.y0 from rfl,
      show ({P with invert := false} : PostParams).y0 = P.y0 from rfl,
      smoothLoop_invert]
    cases hl : smoothLoop {P with invert := false} (s :: srest) fuel P.y0 true true with
    | none => rfl
    | some body =>
      simp only [Option.map_some']
      congr 1
      rw [roughLines_invert, smoothEnd_invert]
      simp [List.map_append, bretonHeader, bretonFooter, invLine]

/-- C8: the axis-inversion round trip.  At the emission rule (`_xyz`),
generating with the inversion flag set on swapped inputs produces the
identical coordinate block as generating uninverted on the unswapped
inputs.  And inversion affects nothing else in the motion algorithm: a
whole generated program with `invert_xy = true` differs from the
uninverted program only by the per-line X/Y relabelling (and the paired
orientation code), for both dialects. -/
theorem claim_C8 :
    (∀ x y z : Option ℚ, xyzFmt true x y z = xyzFmt false y x z)
    ∧ (∀ (P : PostParams) (pts smooth : List Pt) (fuel : ℕ),
        osaiGenerate {P with invert := true} pts smooth fuel
          = (osaiGenerate {P with invert := false} pts smooth fuel).map
              (List.map invLine))
    ∧ (∀ (P : PostParams) (ori wp : String) (pts smooth : List Pt) (fuel : ℕ),
        bretonGenerate {P with invert := true} ori wp pts smooth fuel
          = (bretonGenerate {P with invert := false} ori wp pts smooth fuel).map
              (List.map invLine)) :=
  ⟨fun x y z => rfl, osaiGenerate_invert, bretonGenerate_invert⟩

/-! ## C9: error handling -/

/-- C9: planning through `generate_path` reports an error and hands back
no `Path` when the roughing sample sequence is empty, and when fewer
than 2 smoothing points remain after reduction; `export_gcode` with zero
gathered roughing points fails before any output is produced. -/
theorem claim_C9 :
    (∀ (F : Fns) (d : Dxf) (cfg : Cfg) (fuel : ℕ) (pa : Path),
      build_roughing_path F d cfg fuel = some pa → pa.points = [] →
      generate_path F d cfg ("roughing") fuel
        = some (Except.error ("No points found")))
    ∧ (∀ (F : Fns) (d : Dxf) (cfg : Cfg) (fuel : ℕ) (pa : Path),
        build_smoothing_path F d cfg fuel = some pa → pa.points.length < 2 →
        ∃ msg, generate_path F d cfg ("smoothing") fuel
          = some (Except.error msg))
    ∧ (∀ (passes : List Path) (cfg : Cfg) (fuel : ℕ),
        ((passes.filter fun p => p.label = "roughing").flatMap fun p => p.points) = [] →
        export_gcode passes cfg fuel
          = some (Except.error ("Need at least one roughing path"))) := by
  refine ⟨?_, ?_, ?_⟩
  · intro F d cfg fuel pa hb hempty
    unfold generate_path
    simp [hb, hempty]
  · intro F d cfg fuel pa hb hlen
    unfold generate_path
    by_cases hempty : pa.points = []
    · exact ⟨"No points found", by simp [hb, hempty]⟩
    · exact ⟨"Not enough points for smoothing", by simp [hb, hempty, hlen]⟩
  · intro passes cfg fuel hempty
    unfold export_gcode
    rw [if_pos hempty]

/-- A drawing wrapper with no entities and degenerate extents. -/
def dxf0 : Dxf := { entities := [], xminE := 0, yminE := 0, xmaxE := 0, ymaxE := 0 }

/-- A minimal configuration: blade width 1, both steps 1, everything
optional missing. -/
def cfg0 : Cfg :=
  { machine_settings :=
      { controller := none, table_orientation := none,
        z_clearance := none, z_max := none }
    tool_settings := { blade_width := 1, blade_diameter := 400 }
    toolpath_settings :=
      { roughing_stepover := 1, smoothing_resolution := 1,
        stock_allowance := none, smoothing_stock := none,
        start := none, stop := none, smoothing_step := none,
        plunge_feed := none, roughing_feedrate := none,
        smoothing_feedrate := none } }

/-- Witness for C9: over an empty drawing both planners sample nothing,
`generate_path` reports the corresponding errors, and `export_gcode`
with no passes fails up front. -/
theorem claim_C9_witness :
    build_roughing_path testFns dxf0 cfg0 4 = some { points := [], label := "roughing" }
    ∧ generate_path testFns dxf0 cfg0 ("roughing") 4
        = some (Except.error ("No points found"))
    ∧ (∃ msg, generate_path testFns dxf0 cfg0 ("smoothing") 4
        = some (Except.error msg))
    ∧ export_gcode [] cfg0 4
        = some (Except.error ("Need at least one roughing path")) := by
  have hprobe : ∀ q : ℚ, highest_y testFns (rebuild []) q = none := fun q => rfl
  have h1 : build_roughing_path testFns dxf0 cfg0 4
      = some { points := [], label := "roughing" } := by
    norm_num [build_roughing_path, dxf0, cfg0, sampleOutline, sampleLoop,
      sampleBestPair, hprobe, offsList, Option.getD]
  have h2 : build_smoothing_path testFns dxf0 cfg0 4
      = some { points := [], label := "smoothing" } := by
    norm_num [build_smoothing_path, dxf0, cfg0, sampleOutline, sampleLoop,
      sampleBestPair, hprobe, offsList, Option.getD, reduce]
  exact ⟨h1, claim_C9.1 testFns dxf0 cfg0 4 _ h1 rfl,
    claim_C9.2.1 testFns dxf0 cfg0 4 _ h2 (by norm_num),
    claim_C9.2.2 [] cfg0 4 rfl⟩

/-! ## C10: termination -/

theorem sampleLoop_zero_step (F : Fns) (p : VerticalProbe) (xmax : ℚ)
    (offs : List ℚ) :
    ∀ (n : ℕ) (x : ℚ), x ≤ xmax → sampleLoop F p xmax 0 offs n x = none := by
  intro n
  induction n with
  | zero =>
    intro x hx
    unfold sampleLoop
    rw [if_pos hx]
  | succ n ih =>
    intro x hx
    unfold sampleLoop
    rw [if_pos hx, add_zero, ih x hx]
    rfl

/-- C10 counterexample: neither loop terminates on the inputs the claim
includes.  `sample_outline` with `x_step = 0` (and `xmin ≤ xmax`) loops
forever — no amount of fuel completes it; the smoothing stripe loop with
`blade_width = 0` and `y_step` unsupplied derives a zero stripe step
(`abs(None or 0.0) = 0`) and, with `y0 ≤ y1`, likewise never passes
`traverse_end`. -/
theorem claim_C10_cex :
    (¬ ∃ n, (sampleLoop testFns (rebuild []) 1 0 (offsList 0 3) n 0).isSome = true)
    ∧ (¬ ∃ n, (stripeYs (mkPostParams 0 400 0 10 none 50 100 500 2000 none false) n
        (mkPostParams 0 400 0 10 none 50 100 500 2000 none false).y0).isSome = true) := by
  constructor
  · rintro ⟨n, hn⟩
    rw [sampleLoop_zero_step testFns (rebuild []) 1 (offsList 0 3) n 0 (by norm_num)]
      at hn
    simp at hn
  · rintro ⟨n, hn⟩
    have hstep : smoothStep (mkPostParams 0 400 0 10 none 50 100 500 2000 none false)
        = 0 := by
      norm_num [smoothStep, mkPostParams, pyOr]
    have hcond : smoothCond (mkPostParams 0 400 0 10 none 50 100 500 2000 none false)
        (mkPostParams 0 400 0 10 none 50 100 500 2000 none false).y0 = true := by
      norm_num [smoothCond, smoothStep, mkPostParams, pyOr]
    have hz := stepList_zero_step
      (smoothCond (mkPostParams 0 400 0 10 none 50 100 500 2000 none false)) n
      (mkPostParams 0 400 0 10 none 50 100 500 2000 none false).y0 hcond
    rw [show stripeYs (mkPostParams 0 400 0 10 none 50 100 500 2000 none false) n
        = stepList (smoothCond (mkPostParams 0 400 0 10 none 50 100 500 2000 none false))
            0 n from by rw [← hstep]; rfl] at hn
    rw [hz] at hn
    simp at hn

/-- C10 (amended): the stepping loops terminate in a number of steps
proportional to span divided by step **provided the step moves the
position toward the bound**: `sample_outline`'s loop completes for every
`x_step > 0` with any fuel exceeding `(xmax − x)/x_step`, and the
smoothing stripe loop completes for every derived `y_step > 0` with any
fuel exceeding the analogous traverse-span ratio; with a zero step
(e.g. `x_step = 0`, or `blade_width = 0` with `y_step` unsupplied) the
loops do not terminate. -/
theorem claim_C10 :
    (∀ (F : Fns) (p : VerticalProbe) (xmax xStep : ℚ) (offs : List ℚ)
        (n : ℕ) (x : ℚ), 0 < xStep → (xmax - x) / xStep < n →
      (sampleLoop F p xmax xStep offs n x).isSome = true)
    ∧ (∀ (P : PostParams) (smooth : List Pt) (n : ℕ) (y : ℚ) (dirF first : Bool),
        0 < P.yStep →
        (if P.y1 < P.y0 then (y - P.y1) / P.yStep else (P.y1 - y) / P.yStep) < n →
        (smoothLoop P smooth n y dirF first).isSome = true) := by
  constructor
  · intro F p xmax xStep offs n x hstep hn
    have hgrid : ∀ (m : ℕ) (xq : ℚ),
        (sampleLoop F p xmax xStep offs m xq).isSome
          = (stepList (fun v => decide (v ≤ xmax)) xStep m xq).isSome := by
      intro m
      induction m with
      | zero =>
        intro xq
        unfold sampleLoop stepList
        by_cases hx : xq ≤ xmax
        · rw [if_pos hx, if_pos (by simpa using hx)]
          rfl
        · rw [if_neg hx, if_neg (by simpa using hx)]
          rfl
      | succ m ih =>
        intro xq
        unfold sampleLoop stepList
        by_cases hx : xq ≤ xmax
        · rw [if_pos hx, if_pos (by simpa using hx), isSome_map_opt, isSome_map_opt,
            ih]
        · rw [if_neg hx, if_neg (by simpa using hx)]
          rfl
    rw [hgrid]
    exact stepList_isSome_up (fun v => decide (v ≤ xmax)) xStep xmax
      (fun v hv => by simpa using hv) hstep n x hn
  · intro P smooth n y dirF first hstep hn
    have hloop : ∀ (m : ℕ) (yq : ℚ) (d f : Bool),
        (smoothLoop P smooth m yq d f).isSome
          = (stepList (smoothCond P) (smoothStep P) m yq).isSome := by
      intro m
      induction m with
      | zero =>
        intro yq d f
        unfold smoothLoop stepList
        by_cases hc : smoothCond P yq = true
        · rw [if_pos hc, if_pos hc]
          rfl
        · rw [if_neg hc, if_neg hc]
          rfl
      | succ m ih =>
        intro yq d f
        unfold smoothLoop stepList
        by_cases hc : smoothCond P yq = true
        · rw [if_pos hc, if_pos hc, isSome_map_opt, isSome_map_opt, ih]
        · rw [if_neg hc, if_neg hc]
          rfl
    rw [hloop]
    by_cases hdir : P.y1 < P.y0
    · have hs : smoothStep P = -P.yStep := by
        unfold smoothStep
        rw [if_pos hdir]
      have hneg : smoothStep P < 0 := by rw [hs]; linarith
      have hcond : ∀ v, smoothCond P v = true → P.y1 ≤ v := by
        intro v hv
        unfold smoothCond at hv
        rw [if_pos hneg] at hv
        simpa using hv
      apply stepList_isSome_down (smoothCond P) (smoothStep P) P.y1 hcond hneg
      rw [hs, neg_neg]
      rw [if_pos hdir] at hn
      exact hn
    · have hs : smoothStep P = P.yStep := by
        unfold smoothStep
        rw [if_neg hdir]
      have hpos : 0 < smoothStep P := by rw [hs]; exact hstep
      have hcond : ∀ v, smoothCond P v = true → v ≤ P.y1 := by
        intro v hv
        unfold smoothCond at hv
        rw [if_neg (by linarith : ¬smoothStep P < 0)] at hv
        simpa using hv
      apply stepList_isSome_up (smoothCond P) (smoothStep P) P.y1 hcond hpos
      rw [hs]
      rw [if_neg hdir] at hn
      exact hn

/-- Witness for C10 (amended): concrete positive steps complete within
the stated fuel bounds. -/
theorem claim_C10_witness :
    ((0:ℚ) < 1 ∧ ((1:ℚ) - 0) / 1 < (2:ℕ)
      ∧ (sampleLoop testFns (rebuild []) 1 1 (offsList 1 3) 2 0).isSome = true)
    ∧ (0 < c3Params.yStep
      ∧ (if c3Params.y1 < c3Params.y0 then (100 - c3Params.y1) / c3Params.yStep
          else (c3Params.y1 - 100) / c3Params.yStep) < (3:ℕ)
      ∧ (smoothLoop c3Params [((0:ℚ), (5:ℚ))] 3 100 true true).isSome = true) := by
  have hy : (0:ℚ) < c3Params.yStep := by norm_num [c3Params, mkPostParams, pyOr]
  have hm : (if c3Params.y1 < c3Params.y0 then (100 - c3Params.y1) / c3Params.yStep
      else (c3Params.y1 - 100) / c3Params.yStep) < (3:ℕ) := by
    norm_num [c3Params, mkPostParams, pyOr]
  exact ⟨⟨by norm_num, by norm_num,
      claim_C10.1 testFns (rebuild []) 1 1 (offsList 1 3) 2 0 (by norm_num)
        (by norm_num)⟩,
    ⟨hy, hm, claim_C10.2 c3Params [((0:ℚ), (5:ℚ))] 3 100 true true hy hm⟩⟩

/-! ## C4: the outline sampler -/

theorem sampleBestPair_fst (F : Fns) (p : VerticalProbe) (x : ℚ) (offs : List ℚ) :
    (sampleBestPair F p x offs).1 = colMax F p offs x := by
  unfold sampleBestPair colMax
  have key : ∀ (l : List ℚ) (acc : Option ℚ × Option ℚ),
      (l.foldl
        (fun acc dx =>
          match highest_y F p (x + dx) with
          | some y =>
            match acc.1 with
            | none => (some y, some (x + dx))
            | some b => if y > b then (some y, some (x + dx)) else acc
          | none => acc)
        acc).1
      = omax acc.1 ((l.filterMap fun dx => highest_y F p (x + dx)).max?) := by
    intro l
    induction l with
    | nil =>
      intro acc
      rcases acc with ⟨a1, a2⟩
      cases a1 <;> rfl
    | cons dx t ih =>
      intro acc
      rw [List.foldl_cons]
      cases hy : highest_y F p (x + dx) with
      | none =>
        rw [ih]
        simp only [List.filterMap_cons, hy]
      | some v =>
        rcases acc with ⟨a1, a2⟩
        cases a1 with
        | none =>
          rw [ih]
          simp only [List.filterMap_cons, hy, max?_cons_omax]
          rfl
        | some b =>
          dsimp only
          by_cases hvb : v > b
          · rw [if_pos hvb, ih]
            simp only [List.filterMap_cons, hy, max?_cons_omax, ← omax_assoc]
            have hm : omax (some b) (some v) = some v := by
              simp [omax, max_eq_right (le_of_lt hvb)]
            rw [hm]
          · rw [if_neg hvb, ih]
            simp only [List.filterMap_cons, hy, max?_cons_omax, ← omax_assoc]
            have hm : omax (some b) (some v) = some b := by
              simp [omax, max_eq_left (le_of_not_lt hvb)]
            rw [hm]
  exact key offs (none, none)

theorem sampleLoop_eq_grid (F : Fns) (p : VerticalProbe) (xmax xStep : ℚ)
    (offs : List ℚ) :
    ∀ (n : ℕ) (x : ℚ),
      sampleLoop F p xmax xStep offs n x
        = (stepList (fun v => decide (v ≤ xmax)) xStep n x).map fun xs =>
            xs.filterMap fun xc => (colMax F p offs xc).map fun yv => (xc, yv) := by
  intro n
  induction n with
  | zero =>
    intro x
    unfold sampleLoop stepList
    by_cases hx : x ≤ xmax
    · rw [if_pos hx, if_pos (by simpa using hx)]
      rfl
    · rw [if_neg hx, if_neg (by simpa using hx)]
      rfl
  | succ n ih =>
    intro x
    unfold sampleLoop stepList
    by_cases hx : x ≤ xmax
    · rw [if_pos hx, if_pos (by simpa using hx), ih]
      cases hg : stepList (fun v => decide (v ≤ xmax)) xStep n (x + xStep) with
      | none => rfl
      | some xs =>
        simp only [Option.map_some']
        congr 1
        rw [sampleBestPair_fst]
        simp only [List.filterMap_cons]
        cases hc : colMax F p offs x with
        | none => rfl
        | some yv => rfl
    · rw [if_neg hx, if_neg (by simpa using hx)]
      rfl

theorem filterMap_pair_fst_sublist (g : ℚ → Option ℚ) (xs : List ℚ) :
    List.Sublist
      ((xs.filterMap fun xc => (g xc).map fun yv => (xc, yv)).map Prod.fst) xs := by
  induction xs with
  | nil => simp
  | cons a t ih =>
    rw [List.filterMap_cons]
    cases hg : g a with
    | none => simpa using List.Sublist.cons a ih
    | some v => simpa using List.Sublist.cons₂ a ih

/-- C4: `sample_outline` steps `x` from `xmin` while `x ≤ xmax`; each
visited column probes the lateral offsets `blade_width·i/(offsets−1)`,
records `(x, max y over offsets that returned a value)` at the *nominal*
`x`, skips columns where every offset misses, and the resulting sample
sequence is strictly ascending in `x`. -/
theorem claim_C4 (F : Fns) (msp : List Entity) (xmin xmax bladeW xStep : ℚ)
    (offsets fuel : ℕ) (pts : List Pt)
    (hstep : 0 < xStep) (hoff : 2 ≤ offsets)
    (h : sampleOutline F msp xmin xmax bladeW xStep offsets fuel = some pts) :
    ∃ xs, gridXs xmax xStep fuel xmin = some xs
      ∧ pts = xs.filterMap (fun xc =>
          (colMax F (rebuild msp) (offsList bladeW offsets) xc).map fun yv => (xc, yv))
      ∧ xs = (List.range xs.length).map (fun k : ℕ => xmin + (k : ℚ) * xStep)
      ∧ (∀ xc ∈ xs, xc ≤ xmax)
      ∧ ¬(xmin + (xs.length : ℚ) * xStep ≤ xmax)
      ∧ offsList bladeW offsets
          = (List.range offsets).map
              (fun i : ℕ => bladeW * (i : ℚ) / ((offsets : ℚ) - 1))
      ∧ List.Pairwise (fun a b => a.1 < b.1) pts := by
  unfold sampleOutline at h
  rw [sampleLoop_eq_grid] at h
  cases hg : stepList (fun v => decide (v ≤ xmax)) xStep fuel xmin with
  | none =>
    rw [hg] at h
    simp at h
  | some xs =>
    rw [hg] at h
    have hpts : pts = xs.filterMap (fun xc =>
        (colMax F (rebuild msp) (offsList bladeW offsets) xc).map fun yv => (xc, yv)) :=
      (Option.some_inj.1 h).symm
    obtain ⟨h1, h2, h3⟩ := stepList_spec (fun v => decide (v ≤ xmax)) xStep fuel xmin xs hg
    refine ⟨xs, hg, hpts, h1, ?_, of_decide_eq_false h3, by rfl, ?_⟩
    · intro xc hxc
      have hx := h2 xc hxc
      simpa using hx
    · have hxs_pw : List.Pairwise (fun a b : ℚ => a < b) xs := by
        rw [h1, List.pairwise_map]
        refine (List.pairwise_lt_range xs.length).imp ?_
        intro a b hab
        have hq : (a : ℚ) < (b : ℚ) := by exact_mod_cast hab
        have := mul_lt_mul_of_pos_right hq hstep
        linarith
      have hsub : List.Sublist (pts.map Prod.fst) xs := by
        rw [hpts]
        exact filterMap_pair_fst_sublist _ xs
      have hpw2 : List.Pairwise (fun a b : ℚ => a < b) (pts.map Prod.fst) :=
        hxs_pw.sublist hsub
      rw [List.pairwise_map] at hpw2
      exact hpw2

/-- The entity set of the C4 witness: the diagonal segment from `(0,0)`
to `(2,2)` — probing it at `x` returns `x`. -/
def mspC4 : List Entity := [Entity.line ⟨0, 0, 2, 2⟩]

/-- Witness for C4: sampling the diagonal segment over `[0, 2]` at step 1
with blade width 0 yields the samples `(0,0), (1,1), (2,2)`. -/
theorem claim_C4_witness :
    ((0:ℚ) < 1) ∧ (2 ≤ 3)
    ∧ sampleOutline testFns mspC4 0 2 0 1 3 4 = some [(0, 0), (1, 1), (2, 2)]
    ∧ (∃ xs, gridXs 2 1 4 0 = some xs
      ∧ ([((0:ℚ), (0:ℚ)), (1, 1), (2, 2)] : List Pt) = xs.filterMap (fun xc =>
          (colMax testFns (rebuild mspC4) (offsList 0 3) xc).map fun yv => (xc, yv))
      ∧ xs = (List.range xs.length).map (fun k : ℕ => 0 + (k : ℚ) * 1)
      ∧ (∀ xc ∈ xs, xc ≤ 2)
      ∧ ¬((0:ℚ) + (xs.length : ℚ) * 1 ≤ 2)
      ∧ offsList 0 3 = (List.range 3).map (fun i : ℕ => 0 * (i : ℚ) / ((3 : ℚ) - 1))
      ∧ List.Pairwise (fun a b => a.1 < b.1)
          ([((0:ℚ), (0:ℚ)), (1, 1), (2, 2)] : List Pt)) := by
  have hline : ∀ q : ℚ, (q = 0 ∨ q = 1 ∨ q = 2) →
      highest_y testFns (rebuild mspC4) q = some q := by
    intro q hq
    rcases hq with rfl | rfl | rfl <;>
      norm_num [highest_y, bucketBest, rebuild, mspC4, isArcT, isCircleT, isPolyT,
        isLineT, y_at_x, y_line, isclose, bestFold]
  have hoffs : offsList 0 3 = [0, 0, 0] := by
    norm_num [offsList, List.range_succ]
  have hs : sampleOutline testFns mspC4 0 2 0 1 3 4 = some [(0, 0), (1, 1), (2, 2)] := by
    have h0 := hline 0 (Or.inl rfl)
    have h1 := hline 1 (Or.inr (Or.inl rfl))
    have h2 := hline 2 (Or.inr (Or.inr rfl))
    unfold sampleOutline
    rw [hoffs]
    norm_num [sampleLoop, sampleBestPair, h0, h1, h2]
  exact ⟨by norm_num, by norm_num, hs,
    claim_C4 testFns mspC4 0 2 0 1 3 4 [(0, 0), (1, 1), (2, 2)] (by norm_num)
      (by norm_num) hs⟩

end ProfileWizard
